import Mathlib

/-!
# Verification of the ray-tracer core (djmitche/ray-tracer-challenge)

Shallow embedding of the program's data model and algorithms, with the
floating-point arithmetic of the source modelled by exact rationals (`ℚ`)
where the code only adds, multiplies, divides and compares, by real numbers
(`ℝ`) where square roots and powers occur, and by an explicit extended-value
type (`FE`, carrying infinities and a NaN) where IEEE special values are the
point of the claim.

Each section names the source file it translates.
-/

namespace RayTracer

/-! ## Geometry kernel: square matrices (src/math/matrices.rs)

`Mat<2>`, `Mat<3>`, `Mat<4>` with the determinant / cofactor / inverse
construction exactly as in the source.  The `usize` loops of the source run
over the concrete bounds 0..N, so they are unrolled here; `submatrix` lists,
for each `(r, c)`, the rows other than `r` and the columns other than `c` in
increasing order, exactly as the source's skip-loop produces them.  The space
tags `S1`, `S2` are zero-sized compile-time markers with no runtime content
and are dropped.
-/

/-- `Mat<2, S1, S2>`: row-major 2x2 matrix. -/
structure Mat2 where
  m00 : ℚ
  m01 : ℚ
  m10 : ℚ
  m11 : ℚ
deriving DecidableEq

/-- `Mat<2>::determinant`. -/
def Mat2.determinant (m : Mat2) : ℚ :=
  m.m00 * m.m11 - m.m01 * m.m10

/-- `Mat<3, S1, S2>`: row-major 3x3 matrix. -/
structure Mat3 where
  m00 : ℚ
  m01 : ℚ
  m02 : ℚ
  m10 : ℚ
  m11 : ℚ
  m12 : ℚ
  m20 : ℚ
  m21 : ℚ
  m22 : ℚ
deriving DecidableEq

/-- `Mat<3>::submatrix`: delete row `r` and column `c` (unrolled skip-loop).
Out-of-range indices (which the source never passes) give the zero matrix. -/
def Mat3.submatrix (m : Mat3) (r c : ℕ) : Mat2 :=
  if r = 0 then
    if c = 0 then ⟨m.m11, m.m12, m.m21, m.m22⟩
    else if c = 1 then ⟨m.m10, m.m12, m.m20, m.m22⟩
    else ⟨m.m10, m.m11, m.m20, m.m21⟩
  else if r = 1 then
    if c = 0 then ⟨m.m01, m.m02, m.m21, m.m22⟩
    else if c = 1 then ⟨m.m00, m.m02, m.m20, m.m22⟩
    else ⟨m.m00, m.m01, m.m20, m.m21⟩
  else
    if c = 0 then ⟨m.m01, m.m02, m.m11, m.m12⟩
    else if c = 1 then ⟨m.m00, m.m02, m.m10, m.m12⟩
    else ⟨m.m00, m.m01, m.m10, m.m11⟩

/-- `Mat<3>::minor`. -/
def Mat3.minor (m : Mat3) (r c : ℕ) : ℚ :=
  (m.submatrix r c).determinant

/-- `Mat<3>::cofactor`: the minor, negated when `r + c` is odd. -/
def Mat3.cofactor (m : Mat3) (r c : ℕ) : ℚ :=
  if (r + c) % 2 = 0 then m.minor r c else -(m.minor r c)

/-- `Mat<3>::determinant`: cofactor expansion along row 0 (unrolled loop). -/
def Mat3.determinant (m : Mat3) : ℚ :=
  m.m00 * m.cofactor 0 0 + m.m01 * m.cofactor 0 1 + m.m02 * m.cofactor 0 2

/-- `Mat<4, S1, S2>`: row-major 4x4 matrix. -/
structure Mat4 where
  m00 : ℚ
  m01 : ℚ
  m02 : ℚ
  m03 : ℚ
  m10 : ℚ
  m11 : ℚ
  m12 : ℚ
  m13 : ℚ
  m20 : ℚ
  m21 : ℚ
  m22 : ℚ
  m23 : ℚ
  m30 : ℚ
  m31 : ℚ
  m32 : ℚ
  m33 : ℚ
deriving DecidableEq

/-- `Mat<4>::submatrix`: delete row `r` and column `c` (unrolled skip-loop). -/
def Mat4.submatrix (m : Mat4) (r c : ℕ) : Mat3 :=
  if r = 0 then
    if c = 0 then ⟨m.m11, m.m12, m.m13, m.m21, m.m22, m.m23, m.m31, m.m32, m.m33⟩
    else if c = 1 then ⟨m.m10, m.m12, m.m13, m.m20, m.m22, m.m23, m.m30, m.m32, m.m33⟩
    else if c = 2 then ⟨m.m10, m.m11, m.m13, m.m20, m.m21, m.m23, m.m30, m.m31, m.m33⟩
    else ⟨m.m10, m.m11, m.m12, m.m20, m.m21, m.m22, m.m30, m.m31, m.m32⟩
  else if r = 1 then
    if c = 0 then ⟨m.m01, m.m02, m.m03, m.m21, m.m22, m.m23, m.m31, m.m32, m.m33⟩
    else if c = 1 then ⟨m.m00, m.m02, m.m03, m.m20, m.m22, m.m23, m.m30, m.m32, m.m33⟩
    else if c = 2 then ⟨m.m00, m.m01, m.m03, m.m20, m.m21, m.m23, m.m30, m.m31, m.m33⟩
    else ⟨m.m00, m.m01, m.m02, m.m20, m.m21, m.m22, m.m30, m.m31, m.m32⟩
  else if r = 2 then
    if c = 0 then ⟨m.m01, m.m02, m.m03, m.m11, m.m12, m.m13, m.m31, m.m32, m.m33⟩
    else if c = 1 then ⟨m.m00, m.m02, m.m03, m.m10, m.m12, m.m13, m.m30, m.m32, m.m33⟩
    else if c = 2 then ⟨m.m00, m.m01, m.m03, m.m10, m.m11, m.m13, m.m30, m.m31, m.m33⟩
    else ⟨m.m00, m.m01, m.m02, m.m10, m.m11, m.m12, m.m30, m.m31, m.m32⟩
  else
    if c = 0 then ⟨m.m01, m.m02, m.m03, m.m11, m.m12, m.m13, m.m21, m.m22, m.m23⟩
    else if c = 1 then ⟨m.m00, m.m02, m.m03, m.m10, m.m12, m.m13, m.m20, m.m22, m.m23⟩
    else if c = 2 then ⟨m.m00, m.m01, m.m03, m.m10, m.m11, m.m13, m.m20, m.m21, m.m23⟩
    else ⟨m.m00, m.m01, m.m02, m.m10, m.m11, m.m12, m.m20, m.m21, m.m22⟩

/-- `Mat<4>::minor`. -/
def Mat4.minor (m : Mat4) (r c : ℕ) : ℚ :=
  (m.submatrix r c).determinant

/-- `Mat<4>::cofactor`: the minor, negated when `r + c` is odd. -/
def Mat4.cofactor (m : Mat4) (r c : ℕ) : ℚ :=
  if (r + c) % 2 = 0 then m.minor r c else -(m.minor r c)

/-- `Mat<4>::determinant`: cofactor expansion along row 0 (unrolled loop). -/
def Mat4.determinant (m : Mat4) : ℚ :=
  m.m00 * m.cofactor 0 0 + m.m01 * m.cofactor 0 1 + m.m02 * m.cofactor 0 2 +
    m.m03 * m.cofactor 0 3

/-- `Mat<4>::inverse`: classical adjugate/cofactor construction.  The source
sets `res[(c, r)] = self.cofactor(r, c) / det`, so entry `(i, j)` of the
result is `cofactor j i / det`. -/
def Mat4.inverse (m : Mat4) : Mat4 :=
  let d := m.determinant
  ⟨m.cofactor 0 0 / d, m.cofactor 1 0 / d, m.cofactor 2 0 / d, m.cofactor 3 0 / d,
   m.cofactor 0 1 / d, m.cofactor 1 1 / d, m.cofactor 2 1 / d, m.cofactor 3 1 / d,
   m.cofactor 0 2 / d, m.cofactor 1 2 / d, m.cofactor 2 2 / d, m.cofactor 3 2 / d,
   m.cofactor 0 3 / d, m.cofactor 1 3 / d, m.cofactor 2 3 / d, m.cofactor 3 3 / d⟩

/-- `Mat::identity`. -/
def Mat4.identity : Mat4 :=
  ⟨1, 0, 0, 0, 0, 1, 0, 0, 0, 0, 1, 0, 0, 0, 0, 1⟩

/-- `Mat * Mat` (the `Mul` impl): entry `(i, j)` is the dot product of row `i`
of the left factor with column `j` of the right factor (unrolled loop). -/
def Mat4.mul (a b : Mat4) : Mat4 :=
  ⟨a.m00 * b.m00 + a.m01 * b.m10 + a.m02 * b.m20 + a.m03 * b.m30,
   a.m00 * b.m01 + a.m01 * b.m11 + a.m02 * b.m21 + a.m03 * b.m31,
   a.m00 * b.m02 + a.m01 * b.m12 + a.m02 * b.m22 + a.m03 * b.m32,
   a.m00 * b.m03 + a.m01 * b.m13 + a.m02 * b.m23 + a.m03 * b.m33,
   a.m10 * b.m00 + a.m11 * b.m10 + a.m12 * b.m20 + a.m13 * b.m30,
   a.m10 * b.m01 + a.m11 * b.m11 + a.m12 * b.m21 + a.m13 * b.m31,
   a.m10 * b.m02 + a.m11 * b.m12 + a.m12 * b.m22 + a.m13 * b.m32,
   a.m10 * b.m03 + a.m11 * b.m13 + a.m12 * b.m23 + a.m13 * b.m33,
   a.m20 * b.m00 + a.m21 * b.m10 + a.m22 * b.m20 + a.m23 * b.m30,
   a.m20 * b.m01 + a.m21 * b.m11 + a.m22 * b.m21 + a.m23 * b.m31,
   a.m20 * b.m02 + a.m21 * b.m12 + a.m22 * b.m22 + a.m23 * b.m32,
   a.m20 * b.m03 + a.m21 * b.m13 + a.m22 * b.m23 + a.m23 * b.m33,
   a.m30 * b.m00 + a.m31 * b.m10 + a.m32 * b.m20 + a.m33 * b.m30,
   a.m30 * b.m01 + a.m31 * b.m11 + a.m32 * b.m21 + a.m33 * b.m31,
   a.m30 * b.m02 + a.m31 * b.m12 + a.m32 * b.m22 + a.m33 * b.m32,
   a.m30 * b.m03 + a.m31 * b.m13 + a.m32 * b.m23 + a.m33 * b.m33⟩

/-- `Mat<4>::translate`: left-multiply by a translation matrix. -/
def Mat4.translate (m : Mat4) (x y z : ℚ) : Mat4 :=
  Mat4.mul ⟨1, 0, 0, x, 0, 1, 0, y, 0, 0, 1, z, 0, 0, 0, 1⟩ m

/-- `Mat<4>::scale`: left-multiply by a scaling matrix. -/
def Mat4.scale (m : Mat4) (x y z : ℚ) : Mat4 :=
  Mat4.mul ⟨x, 0, 0, 0, 0, y, 0, 0, 0, 0, z, 0, 0, 0, 0, 1⟩ m

/-! ## Points, vectors and rays (src/math/points.rs, vectors.rs, matrices.rs) -/

/-- `Point<S>`: three components, implicit homogeneous coordinate 1. -/
structure PointQ where
  x : ℚ
  y : ℚ
  z : ℚ
deriving DecidableEq

/-- `Vector<S>`: three components, implicit homogeneous coordinate 0. -/
structure VecQ where
  x : ℚ
  y : ℚ
  z : ℚ
deriving DecidableEq

/-- `Point::as_vector`. -/
def PointQ.as_vector (p : PointQ) : VecQ :=
  ⟨p.x, p.y, p.z⟩

/-- `Vector::dot`. -/
def VecQ.dot (a b : VecQ) : ℚ :=
  a.x * b.x + a.y * b.y + a.z * b.z

/-- `Mat<4> * Point` (the `Mul` impl): the implicit 4th element of the point
is 1.0. -/
def Mat4.mulPoint (m : Mat4) (p : PointQ) : PointQ :=
  ⟨p.x * m.m00 + p.y * m.m01 + p.z * m.m02 + m.m03,
   p.x * m.m10 + p.y * m.m11 + p.z * m.m12 + m.m13,
   p.x * m.m20 + p.y * m.m21 + p.z * m.m22 + m.m23⟩

/-- `Mat<4> * Vector` (the `Mul` impl): the implicit 4th element of the
vector is 0.0. -/
def Mat4.mulVec (m : Mat4) (v : VecQ) : VecQ :=
  ⟨v.x * m.m00 + v.y * m.m01 + v.z * m.m02,
   v.x * m.m10 + v.y * m.m11 + v.z * m.m12,
   v.x * m.m20 + v.y * m.m21 + v.z * m.m22⟩

/-- `Ray<S>`: origin point, direction vector. -/
structure RayQ where
  origin : PointQ
  direction : VecQ
deriving DecidableEq

/-- `Mat<4> * Ray` (spec §3: a ray is transformable by a matrix componentwise;
the matrix acts on the origin as a point and on the direction as a vector, by
the two `Mul` impls of src/math/matrices.rs). -/
def Mat4.mulRay (m : Mat4) (r : RayQ) : RayQ :=
  ⟨m.mulPoint r.origin, m.mulVec r.direction⟩

/-! ## Intersection engine (src/intersect.rs)

`Intersection` is a ray parameter together with the `ObjectIndex` of the
intersected object (a plain index into the world's object list, here `ℕ`).
`Intersections` is the recorded list of hits; `add` pushes to the end.
`hit` first sorts ascending by `t` (`Vec::sort_by` with the `t` comparison is
a stable sort; a stable insertion sort models it), then runs the
currently-inside-stack loop of `Intersections::hit`.
-/

/-- `Intersection`: `(t, object_index)`. -/
structure Inter where
  t : ℚ
  object_index : ℕ
deriving DecidableEq

/-- `Intersections::add`: push a recorded hit. -/
def addInter (l : List Inter) (t : ℚ) (oi : ℕ) : List Inter :=
  l ++ [⟨t, oi⟩]

/-- `Vec::last()`: the final element, if any. -/
def lastOpt {α : Type} : List α → Option α
| [] => none
| [x] => some x
| _ :: x :: xs => lastOpt (x :: xs)

/-- `containers.iter().position(..)` followed by `containers.remove(idx)`:
delete the first element with the given object index, or report absence. -/
def removeFirstInter (oi : ℕ) : List Inter → Option (List Inter)
| [] => none
| x :: xs =>
    if x.object_index = oi then some xs
    else (removeFirstInter oi xs).map (fun l => x :: l)

/-- Stable insertion of one intersection into a `t`-sorted list: it lands
after every element whose `t` is `≤` its own. -/
def insertByT (x : Inter) : List Inter → List Inter
| [] => [x]
| y :: ys => if y.t ≤ x.t then y :: insertByT x ys else x :: y :: ys

/-- `Intersections::sort`: stable sort ascending by `t`. -/
def sortByT (l : List Inter) : List Inter :=
  l.foldl (fun acc x => insertByT x acc) []

/-- The loop body of `Intersections::hit` (src/intersect.rs lines 68-84):
`containers` is the currently-inside stack (`Vec` top = last element),
`fromObj` the `from_obj` variable. -/
def hitGo : List Inter → List Inter → Option ℕ → Option ℕ × Option Inter
| [], _, fromObj => (fromObj, none)
| h :: rest, containers, fromObj =>
    let fromObj1 := if 0 ≤ h.t then (lastOpt containers).map Inter.object_index else fromObj
    let containers1 :=
      match removeFirstInter h.object_index containers with
      | some l => l
      | none => containers ++ [h]
    if 0 ≤ h.t then (fromObj1, lastOpt containers1) else hitGo rest containers1 fromObj1

/-- `Intersections::hit`: sort, then scan with the currently-inside stack. -/
def Intersections.hit (hits : List Inter) : Option ℕ × Option Inter :=
  hitGo (sortByT hits) [] none

/-! ### The hit-resolution algorithm as the spec states it (spec §4.4)

The pseudocode of §4.4 keeps a stack of media (objects entered but not
exited) and returns media, not intersection records.  It is written here
directly from the spec's words, to be compared against `Intersections.hit`.
-/

/-- Delete the first occurrence of an object from the spec's medium stack,
or report absence ("remove if present [exiting]"). -/
def removeFirstNat (oi : ℕ) : List ℕ → Option (List ℕ)
| [] => none
| x :: xs =>
    if x = oi then some xs
    else (removeFirstNat oi xs).map (fun l => x :: l)

/-- Spec §4.4 loop: "for each intersection h in increasing t: if h.t ≥ 0:
from_medium := (stack top's object, or vacuum if empty); toggle h.object's
membership in the stack; if h.t ≥ 0: return (from_medium,
stack-top-after-toggle-or-vacuum); stop".  The stack top is the last
element. -/
def specHitGo : List Inter → List ℕ → Option ℕ → Option ℕ × Option ℕ
| [], _, fromMed => (fromMed, none)
| h :: rest, stack, fromMed =>
    let fromMed1 := if 0 ≤ h.t then lastOpt stack else fromMed
    let stack1 :=
      match removeFirstNat h.object_index stack with
      | some l => l
      | none => stack ++ [h.object_index]
    if 0 ≤ h.t then (fromMed1, lastOpt stack1) else specHitGo rest stack1 fromMed1

/-- Spec §4.4: sort ascending by t, then run the currently-inside stack
scan. -/
def specHit (hits : List Inter) : Option ℕ × Option ℕ :=
  specHitGo (sortByT hits) [] none

/-! ## Unit sphere and world intersection (src/sphere.rs, src/object/object.rs,
src/world.rs)

`f64::sqrt` is modelled by `sqrtQ`, which is exact on perfect-square
rationals; every discriminant arising in the concrete scenes verified below
is a perfect square, so on those inputs the model agrees with the real
square root. -/

/-- Rational square root, exact on perfect squares. -/
def sqrtQ (q : ℚ) : ℚ :=
  (Nat.sqrt q.num.natAbs : ℚ) / (Nat.sqrt q.den : ℚ)

/-- Object-space unit-sphere intersection: the quadratic of
src/sphere.rs lines 36-51 (`|O + tD|² = 1`), recording both roots when the
discriminant is nonnegative.  The object's index is recorded with each
root. -/
def sphereIntersect (oi : ℕ) (r : RayQ) (inters : List Inter) : List Inter :=
  let sphere_to_ray := r.origin.as_vector
  let a := r.direction.dot r.direction
  let b := 2 * r.direction.dot sphere_to_ray
  let c := sphere_to_ray.dot sphere_to_ray - 1
  let discriminant := b * b - 4 * a * c
  if 0 ≤ discriminant then
    addInter (addInter inters ((-b - sqrtQ discriminant) / (a * 2)) oi)
      ((-b + sqrtQ discriminant) / (a * 2)) oi
  else inters

/-- An `Object` as far as intersection is concerned: a unit sphere together
with the stored world→object transform (`with_transform` stores the inverse
of the given object→world matrix). -/
structure ObjectQ where
  transform : Mat4
deriving DecidableEq

/-- `Object::new(Sphere).with_transform(m)`. -/
def mkSphereObject (obj_to_world : Mat4) : ObjectQ :=
  ⟨obj_to_world.inverse⟩

/-- `Object::intersect`: transform the ray into object space, delegate to
the shape. -/
def ObjectQ.intersect (o : ObjectQ) (oi : ℕ) (ray : RayQ) (inters : List Inter) :
    List Inter :=
  sphereIntersect oi (o.transform.mulRay ray) inters

/-- `World::intersect`: every object is intersected in index order, each
recording under its own index. -/
def worldIntersect (objects : List ObjectQ) (ray : RayQ) : List Inter :=
  (objects.enum).foldl (fun inters p => p.2.intersect p.1 ray inters) []

/-- The three concentric transparent spheres of the medium-tracking scene:
`a` is the unit sphere scaled by 3, `b` the unit sphere translated to
z = −0.25, `c` the unit sphere translated to z = +0.25 (indices 0, 1, 2). -/
def scenarioObjects : List ObjectQ :=
  [mkSphereObject (Mat4.identity.scale 3 3 3),
   mkSphereObject (Mat4.identity.translate 0 0 (-(1/4))),
   mkSphereObject (Mat4.identity.translate 0 0 (1/4))]

/-- Probe the scene with a ray from `(0, 0, z0)` toward +z and resolve the
hit; the second component is reduced to the object index of the returned
intersection. -/
def mediumQuery (z0 : ℚ) : Option ℕ × Option ℕ :=
  let r : RayQ := ⟨⟨0, 0, z0⟩, ⟨0, 0, 1⟩⟩
  let res := Intersections.hit (worldIntersect scenarioObjects r)
  (res.1, res.2.map Inter.object_index)

/-! ## World assembly (src/world.rs lines 29-62)

`World` owns one light and the object collection; `add_object` returns the
index of the slot it appended to, `set_light` replaces the light.  A light is
a world-space position and an intensity color (src/world.rs lines 13-27);
color components are the rationals standing for `f64`. -/

/-- `Light::new_point`: position and intensity. -/
structure LightQ where
  position : PointQ
  red : ℚ
  green : ℚ
  blue : ℚ
deriving DecidableEq

/-- `World`: one light plus the object collection. -/
structure WorldQ where
  light : LightQ
  objects : List ObjectQ
deriving DecidableEq

/-- `World::add_object`: append, returning the `ObjectIndex` of the new
slot. -/
def WorldQ.add_object (w : WorldQ) (obj : ObjectQ) : ℕ × WorldQ :=
  (w.objects.length, ⟨w.light, w.objects ++ [obj]⟩)

/-- `World::set_light`. -/
def WorldQ.set_light (w : WorldQ) (light : LightQ) : WorldQ :=
  ⟨light, w.objects⟩

/-- One assembly-time call against a `World`. -/
inductive WorldOp where
| addObject (obj : ObjectQ)
| setLight (light : LightQ)

/-- Run a sequence of assembly calls, collecting the `ObjectIndex` returned
by each `add_object`. -/
def applyOps : WorldQ → List WorldOp → WorldQ × List ℕ
| w, [] => (w, [])
| w, WorldOp.addObject o :: rest =>
    let r := w.add_object o
    let rec1 := applyOps r.2 rest
    (rec1.1, r.1 :: rec1.2)
| w, WorldOp.setLight l :: rest => applyOps (w.set_light l) rest

/-- The objects passed to `add_object`, in call order. -/
def addedObjects : List WorldOp → List ObjectQ
| [] => []
| WorldOp.addObject o :: rest => o :: addedObjects rest
| WorldOp.setLight _ :: rest => addedObjects rest

/-! ## Colors and vectors over ℝ (src/colors.rs, src/math/vectors.rs)

The material functions of src/material.rs take square roots and fifth
powers, so they are modelled over the real numbers. -/

/-- `Color`: unclamped components (componentwise `Add` and `Mul<f64>` from
src/colors.rs). -/
structure ColorR where
  red : ℝ
  green : ℝ
  blue : ℝ

/-- `Color::black()`. -/
def ColorR.black : ColorR :=
  ⟨0, 0, 0⟩

/-- `Color + Color` (componentwise). -/
def ColorR.add (a b : ColorR) : ColorR :=
  ⟨a.red + b.red, a.green + b.green, a.blue + b.blue⟩

/-- `Color * f64` (componentwise). -/
def ColorR.smul (c : ColorR) (s : ℝ) : ColorR :=
  ⟨c.red * s, c.green * s, c.blue * s⟩

/-- `Vector<S>` over ℝ. -/
structure VecR where
  x : ℝ
  y : ℝ
  z : ℝ

/-- `Vector::dot`. -/
def VecR.dot (a b : VecR) : ℝ :=
  a.x * b.x + a.y * b.y + a.z * b.z

/-- `Vector * f64`. -/
def VecR.smul (v : VecR) (s : ℝ) : VecR :=
  ⟨v.x * s, v.y * s, v.z * s⟩

/-- `Vector - Vector`. -/
def VecR.sub (a b : VecR) : VecR :=
  ⟨a.x - b.x, a.y - b.y, a.z - b.z⟩

/-- `Point<S>` over ℝ. -/
structure PointR where
  x : ℝ
  y : ℝ
  z : ℝ

/-- `Point + Vector`. -/
def PointR.addVec (p : PointR) (v : VecR) : PointR :=
  ⟨p.x + v.x, p.y + v.y, p.z + v.z⟩

/-- `Ray<S>` over ℝ. -/
structure RayR where
  origin : PointR
  direction : VecR

/-! ## Material: refraction and Schlick reflectance (src/material.rs)

`Material::refracted_color` (lines 91-121) and `Material::reflectance`
(lines 124-149), with `world.color_at` — the recursive cast — passed in as
the oracle `worldColorAt`, so a result that holds for every oracle is a
result computed without consulting the world.  The `debug` printing
parameter has no effect on the returned color and is dropped.
`powf(5.0)` on a finite base is the fifth power. -/

/-- The numeric fields of `Material` (the pattern is an external
collaborator and plays no part in the functions below). -/
structure MaterialR where
  ambient : ℝ
  diffuse : ℝ
  specular : ℝ
  shininess : ℝ
  reflectivity : ℝ
  transparency : ℝ
  refractive_index : ℝ

/-- `Material::refracted_color`: Snell's law; `sin²θ_t > 1` is total internal
reflection and yields black before any recursive cast; otherwise the
refracted ray is cast from the 0.01-offset point and the result scaled by the
transparency. -/
noncomputable def MaterialR.refracted_color (m : MaterialR)
    (worldColorAt : RayR → ℝ → ColorR) (n1 n2 : ℝ) (point : PointR)
    (eyev normalv : VecR) (total_contribution : ℝ) : ColorR :=
  let n_ratio := n1 / n2
  let cos_i := eyev.dot normalv
  let sin2_t := n_ratio * n_ratio * (1 - cos_i * cos_i)
  if 1 < sin2_t then ColorR.black
  else
    let cos_t := Real.sqrt (1 - sin2_t)
    let direction := (normalv.smul (n_ratio * cos_i - cos_t)).sub (eyev.smul n_ratio)
    let refract_ray : RayR := ⟨point.addVec (direction.smul (1 / 100)), direction⟩
    (worldColorAt refract_ray (total_contribution * m.transparency)).smul m.transparency

/-- `Material::reflectance`: the Schlick approximation; when `n1 > n2` the
squared transmitted sine is tested — above 1 is total internal reflection
and the reflectance is exactly 1 — and otherwise `cos θ_t` replaces
`cos θ_i` in the Schlick polynomial. -/
noncomputable def MaterialR.reflectance (n1 n2 : ℝ) (eyev normalv : VecR) : ℝ :=
  let cos0 := eyev.dot normalv
  if n2 < n1 then
    let n := n1 / n2
    let sin2_t := n * n * (1 - cos0 * cos0)
    if 1 < sin2_t then 1
    else
      let cos_t := Real.sqrt (1 - sin2_t)
      let r0 := ((n1 - n2) / (n1 + n2)) * ((n1 - n2) / (n1 + n2))
      r0 + (1 - r0) * (1 - cos_t) ^ (5 : ℕ)
  else
    let r0 := ((n1 - n2) / (n1 + n2)) * ((n1 - n2) / (n1 + n2))
    r0 + (1 - r0) * (1 - cos0) ^ (5 : ℕ)

/-- The squared transmitted sine of the claim:
`sin²θ_t = (n1/n2)² · (1 − cos²θ_i)` with `cos θ_i = eyev · normalv`. -/
noncomputable def sin2T (n1 n2 : ℝ) (eyev normalv : VecR) : ℝ :=
  (n1 / n2) * (n1 / n2) * (1 - eyev.dot normalv * (eyev.dot normalv))

/-- The Schlick value of the claim: `r0 + (1 − r0)(1 − cos)^5` with
`r0 = ((n1 − n2)/(n1 + n2))²`. -/
noncomputable def schlickValue (n1 n2 c : ℝ) : ℝ :=
  let r0 := ((n1 - n2) / (n1 + n2)) * ((n1 - n2) / (n1 + n2))
  r0 + (1 - r0) * (1 - c) ^ (5 : ℕ)

/-! ## The recursive shading evaluator (spec §4.5, src/material.rs lines
151-234, src/object/object.rs lines 121-133, src/camera.rs line 109)

Modelled from the spec: the final snapshot's `World::color_at(ray,
contribution)` is not under src/ — only its callers are (the recursive
casts in `Material::reflected_color` / `refracted_color` and
`Camera::color_at`'s initial `color_at(&ray, 1.0)`).  Per §4.5 it
(1) returns black when the contribution is below ε_min = 0.001 — the sole
termination rule, with no depth counter; (2) resolves the hit (black when
nothing is hit); (3)-(4) computes a local surface color; (5)-(6) recurses
along the reflected and refracted rays with the contribution multiplied by
the reflectivity resp. transparency, scaling each result likewise, with
total internal reflection giving black refraction; (7) blends by the Schlick
reflectance when both contributions exist, uses one unscaled, or adds
nothing.  The geometric content of a hit — its local color, secondary rays,
TIR flag and Schlick value — is supplied by an abstract scene oracle, so the
theorems below hold for every scene; the recursion itself is on an explicit
fuel, and the theorems show the value is fuel-independent once the fuel
exceeds the energy-decay depth. -/

/-- What the intersection engine and local illumination deliver for one hit:
the hit object's reflectivity and transparency, the local surface color, the
two epsilon-offset secondary rays, whether the refraction boundary is in
total internal reflection, and the Schlick blend value. -/
structure SceneHit where
  reflectivity : ℝ
  transparency : ℝ
  surface : ColorR
  reflect_ray : RayR
  refract_tir : Bool
  refract_ray : RayR
  reflectance : ℝ

/-- A scene as the recursion sees it: each ray either misses or produces a
hit record. -/
structure Scene where
  hit : RayR → Option SceneHit

/-- Modelled from the spec (§4.5): `World::color_at` with an explicit fuel. -/
noncomputable def colorAt (s : Scene) : ℕ → RayR → ℝ → ColorR
| 0, _, _ => ColorR.black
| fuel + 1, r, contribution =>
    if contribution < 1 / 1000 then ColorR.black
    else
      match s.hit r with
      | none => ColorR.black
      | some h =>
          let reflected :=
            if 0 < h.reflectivity then
              some ((colorAt s fuel h.reflect_ray (contribution * h.reflectivity)).smul
                h.reflectivity)
            else none
          let refracted :=
            if 0 < h.transparency then
              some (if h.refract_tir then ColorR.black
                else (colorAt s fuel h.refract_ray (contribution * h.transparency)).smul
                  h.transparency)
            else none
          match reflected, refracted with
          | some refl, none => h.surface.add refl
          | none, some refr => h.surface.add refr
          | some refl, some refr =>
              h.surface.add ((refl.smul h.reflectance).add (refr.smul (1 - h.reflectance)))
          | none, none => h.surface

/-- A scene that is one perfect mirror facing itself: every ray hits a
surface with reflectivity exactly 1, unit surface color and no
transparency. -/
noncomputable def mirrorScene : Scene :=
  ⟨fun _ => some ⟨1, 0, ⟨1, 1, 1⟩, ⟨⟨0, 0, 0⟩, ⟨0, 0, 1⟩⟩, false, ⟨⟨0, 0, 0⟩, ⟨0, 0, 1⟩⟩, 1⟩⟩

/-- A scene whose every hit has reflectivity 1/2 and no transparency: all
its materials satisfy the energy-decay bound with q = 1/2. -/
noncomputable def halfMirrorScene : Scene :=
  ⟨fun _ => some ⟨1 / 2, 0, ⟨1, 1, 1⟩, ⟨⟨0, 0, 0⟩, ⟨0, 0, 1⟩⟩, false, ⟨⟨0, 0, 0⟩, ⟨0, 0, 1⟩⟩, 1⟩⟩

/-! ## IEEE special values for the cube and the camera (src/csg/object/cube.rs,
src/camera.rs)

The cube's slab test multiplies by `f64::INFINITY` and compares the results,
and `Camera::color_at` divides by a zero sample count, so these two places
are modelled over an extended value type carrying the two infinities and a
NaN; finite values are exact rationals.  Each operation below implements the
IEEE-754 (and Rust `f64::max`/`min`) behaviour on the value combinations the
embedded code can produce. -/

/-- An `f64` value as the cube/camera code can observe it: finite, ±∞ or
NaN. -/
inductive FE where
| fin : ℚ → FE
| pinf : FE
| ninf : FE
| nan : FE
deriving DecidableEq

/-- IEEE `<`: false on NaN operands, −∞ below finite below +∞. -/
def FE.lt : FE → FE → Bool
| FE.fin a, FE.fin b => decide (a < b)
| FE.fin _, FE.pinf => true
| FE.ninf, FE.fin _ => true
| FE.ninf, FE.pinf => true
| _, _ => false

/-- IEEE `<=`: false on NaN operands. -/
def FE.le : FE → FE → Bool
| FE.fin a, FE.fin b => decide (a ≤ b)
| FE.fin _, FE.pinf => true
| FE.ninf, FE.fin _ => true
| FE.ninf, FE.pinf => true
| FE.pinf, FE.pinf => true
| FE.ninf, FE.ninf => true
| _, _ => false

/-- Rust `f64::max`: ignores a NaN operand, otherwise the larger value. -/
def FE.max (a b : FE) : FE :=
  match a, b with
  | FE.nan, _ => b
  | _, FE.nan => a
  | _, _ => if FE.lt a b then b else a

/-- Rust `f64::min`: ignores a NaN operand, otherwise the smaller value. -/
def FE.min (a b : FE) : FE :=
  match a, b with
  | FE.nan, _ => b
  | _, FE.nan => a
  | _, _ => if FE.lt b a then b else a

/-- A finite value times `f64::INFINITY`: signed infinity, or NaN for
`0.0 * INFINITY`. -/
def mulPinf (a : ℚ) : FE :=
  if 0 < a then FE.pinf else if a < 0 then FE.ninf else FE.nan

/-- IEEE addition on the values reached here: NaN propagates, opposite
infinities give NaN. -/
def FE.add : FE → FE → FE
| FE.fin a, FE.fin b => FE.fin (a + b)
| FE.nan, _ => FE.nan
| _, FE.nan => FE.nan
| FE.pinf, FE.ninf => FE.nan
| FE.ninf, FE.pinf => FE.nan
| FE.pinf, _ => FE.pinf
| _, FE.pinf => FE.pinf
| FE.ninf, _ => FE.ninf
| _, FE.ninf => FE.ninf

/-- IEEE division on the values reached here: `0.0 / 0.0` is NaN, a nonzero
finite value over zero is a signed infinity. -/
def FE.div : FE → FE → FE
| FE.fin a, FE.fin b =>
    if b = 0 then (if a = 0 then FE.nan else if 0 < a then FE.pinf else FE.ninf)
    else FE.fin (a / b)
| FE.nan, _ => FE.nan
| _, FE.nan => FE.nan
| FE.fin _, FE.pinf => FE.fin 0
| FE.fin _, FE.ninf => FE.fin 0
| FE.pinf, FE.fin b => if 0 ≤ b then FE.pinf else FE.ninf
| FE.ninf, FE.fin b => if 0 ≤ b then FE.ninf else FE.pinf
| _, _ => FE.nan

/-- `f64::EPSILON` is 2^(−52), exactly representable as a rational. -/
def f64Epsilon : ℚ :=
  1 / 2 ^ 52

/-- `check_axis` (src/csg/object/cube.rs lines 15-29): per-axis slab
parameters, dividing when the direction component is at least
`f64::EPSILON` in magnitude and multiplying by `f64::INFINITY` otherwise,
then swapping so the smaller comes first (NaN comparing false leaves the
pair swapped). -/
def check_axis (origin direction : ℚ) : FE × FE :=
  let tmin_num := -1 - origin
  let tmax_num := 1 - origin
  let p : FE × FE :=
    if f64Epsilon ≤ |direction| then
      (FE.fin (tmin_num / direction), FE.fin (tmax_num / direction))
    else (mulPinf tmin_num, mulPinf tmax_num)
  if FE.lt p.1 p.2 then (p.1, p.2) else (p.2, p.1)

/-- The overall slab entry parameter: the maximum of the three per-axis slab
minima, associated as the source's `xtmin.max(ytmin).max(ztmin)`. -/
def slabTmin (ray : RayQ) : FE :=
  FE.max (FE.max (check_axis ray.origin.x ray.direction.x).1
      (check_axis ray.origin.y ray.direction.y).1)
    (check_axis ray.origin.z ray.direction.z).1

/-- The overall slab exit parameter: the minimum of the three per-axis slab
maxima. -/
def slabTmax (ray : RayQ) : FE :=
  FE.min (FE.min (check_axis ray.origin.x ray.direction.x).2
      (check_axis ray.origin.y ray.direction.y).2)
    (check_axis ray.origin.z ray.direction.z).2

/-- `Cube::intersect` (src/csg/object/cube.rs lines 9-41): the list of ray
parameters recorded by the two `inters.add` calls, in order (the recorded
object index is the constant argument and is omitted). -/
def cubeIntersect (ray : RayQ) : List FE :=
  let tmin := slabTmin ray
  let tmax := slabTmax ray
  if FE.le tmin tmax then [tmin, tmax] else []

/-- `Cube::normal` (src/csg/object/cube.rs lines 43-61): the axis of the
largest-magnitude coordinate, ties broken toward x then y. -/
def cubeNormal (p : PointQ) : VecQ :=
  let x := |p.x|
  let y := |p.y|
  let z := |p.z|
  if y ≤ x then
    if z ≤ x then ⟨p.x, 0, 0⟩ else ⟨0, 0, p.z⟩
  else
    if z ≤ y then ⟨0, p.y, 0⟩ else ⟨0, 0, p.z⟩

/-! ## Camera supersampling accumulator (src/camera.rs lines 101-114)

`Camera::color_at` runs `for xo in 1..=oversample { for yo in 1..=oversample
{ acc = acc + world.color_at(ray_for_pixel(..), 1.0) } }` and then divides by
`(oversample * oversample) as f64`.  The per-sample ray construction and
shading call is the oracle `sample xo yo`; colors are componentwise over the
extended values so the division is the IEEE one. -/

/-- A color as the camera accumulates it. -/
structure FEColor where
  red : FE
  green : FE
  blue : FE
deriving DecidableEq

/-- `Color::black()` as the accumulator's start. -/
def FEColor.black : FEColor :=
  ⟨FE.fin 0, FE.fin 0, FE.fin 0⟩

/-- Componentwise color addition. -/
def FEColor.add (a b : FEColor) : FEColor :=
  ⟨FE.add a.red b.red, FE.add a.green b.green, FE.add a.blue b.blue⟩

/-- `Color / f64`: componentwise division. -/
def FEColor.divScalar (c : FEColor) (s : FE) : FEColor :=
  ⟨FE.div c.red s, FE.div c.green s, FE.div c.blue s⟩

/-- The loop indices `(xo, yo)` of the two nested `1..=oversample` ranges,
in iteration order. -/
def oversampleOffsets (oversample : ℕ) : List (ℕ × ℕ) :=
  ((List.range oversample).map (fun i => i + 1)).flatMap
    (fun xo => ((List.range oversample).map (fun i => i + 1)).map (fun yo => (xo, yo)))

/-- `Camera::color_at`, with `sample xo yo` standing for the shading cast
`world.color_at(ray_for_pixel(x, y, overfactor * xo, overfactor * yo),
1.0)`; one oracle call per loop iteration. -/
def cameraColorAt (oversample : ℕ) (sample : ℕ → ℕ → FEColor) : FEColor :=
  let acc := (oversampleOffsets oversample).foldl
    (fun acc p => acc.add (sample p.1 p.2)) FEColor.black
  acc.divScalar (FE.fin ((oversample * oversample : ℕ) : ℚ))

/-! ## Pixel iteration (src/camera.rs lines 145-182)

`PixelIterator` over `u32` coordinates; for the sizes a `u32` can hold the
increments below never overflow, so `ℕ` models the arithmetic exactly. -/

/-- `PixelIterator`: sizes and the next coordinate to yield. -/
structure PixelIterator where
  hsize : ℕ
  vsize : ℕ
  nextx : ℕ
  nexty : ℕ
deriving DecidableEq

/-- `PixelIterator::next`: yield `(nextx, nexty)` while `nexty < vsize`,
stepping x and wrapping to the next row when `nextx + 1 >= hsize`. -/
def PixelIterator.next (p : PixelIterator) : Option ((ℕ × ℕ) × PixelIterator) :=
  if p.nexty < p.vsize then
    some ((p.nextx, p.nexty),
      if p.hsize ≤ p.nextx + 1 then ⟨p.hsize, p.vsize, 0, p.nexty + 1⟩
      else ⟨p.hsize, p.vsize, p.nextx + 1, p.nexty⟩)
  else none

/-- `(&Camera).into_iter()`: iteration starts at `(0, 0)`. -/
def intoIter (hsize vsize : ℕ) : PixelIterator :=
  ⟨hsize, vsize, 0, 0⟩

/-- Drive the iterator: the list of yielded items, together with whether
`next` returned `None` within the given number of steps (i.e. whether the
iteration was observed to terminate). -/
def runIter : ℕ → PixelIterator → List (ℕ × ℕ) × Bool
| 0, _ => ([], false)
| fuel + 1, p =>
    match p.next with
    | none => ([], true)
    | some (item, p1) =>
        let r := runIter fuel p1
        (item :: r.1, r.2)

/-- The row-major enumeration of an `hsize × vsize` image: y in the outer
loop, x in the inner loop. -/
def rowMajor (hsize vsize : ℕ) : List (ℕ × ℕ) :=
  (List.range vsize).flatMap (fun y => (List.range hsize).map (fun x => (x, y)))

/-- The tail of the row-major enumeration from position `(x, y)`: the rest
of row `y`, then the remaining rows. -/
def rowMajorFrom (hsize vsize x y : ℕ) : List (ℕ × ℕ) :=
  ((List.range' x (hsize - x)).map (fun i => (i, y))) ++
    ((List.range' (y + 1) (vsize - (y + 1))).flatMap
      (fun yy => (List.range hsize).map (fun xx => (xx, yy))))

/-! ## Theorems -/

/-- C8: for every starting world and every sequence of `add_object` /
`set_light` calls, the objects after the sequence are the starting objects
followed by the added objects in call order (so nothing already stored is
ever modified, reordered or removed, and `set_light` leaves the collection
unchanged), and the `ObjectIndex` values returned by the `add_object` calls
are the consecutive indices starting at the prior collection length — in
particular the i-th `add_object` against a fresh world returns index i, and
an index, once returned, refers to the same slot for the world's entire
lifetime. -/
theorem world_add_object_append_only :
    ∀ (w : WorldQ) (ops : List WorldOp),
      (applyOps w ops).1.objects = w.objects ++ addedObjects ops ∧
        (applyOps w ops).2 =
          List.range' w.objects.length (addedObjects ops).length := by
  intro w ops
  induction ops generalizing w with
  | nil => simp [applyOps, addedObjects]
  | cons op rest ih =>
    cases op with
    | addObject o =>
        have h := ih ⟨w.light, w.objects ++ [o]⟩
        simp only [applyOps, addedObjects, WorldQ.add_object] at h ⊢
        refine ⟨?_, ?_⟩
        · rw [h.1]; simp
        · rw [h.2]; simp [List.range'_succ]
    | setLight l =>
        have h := ih ⟨l, w.objects⟩
        simpa [applyOps, addedObjects, WorldQ.set_light] using h

/-- C3: `World::color_at` called with a contribution below the termination
threshold 0.001 returns exactly black, for every scene, every ray and every
recursion fuel — the test fires before any intersection or recursion is
attempted. -/
theorem colorAt_below_threshold_black :
    ∀ (s : Scene) (fuel : ℕ) (r : RayR) (contribution : ℝ),
      contribution < 1 / 1000 → colorAt s fuel r contribution = ColorR.black := by
  intro s fuel r c h
  cases fuel with
  | zero => rfl
  | succ n =>
      simp only [colorAt]
      rw [if_pos h]

/-- Witness for C3 at a concrete scene, ray and contribution. -/
theorem colorAt_below_threshold_black_witness :
    (1 / 2000 : ℝ) < 1 / 1000 ∧
      colorAt ⟨fun _ => none⟩ 5 ⟨⟨0, 0, 0⟩, ⟨0, 0, 1⟩⟩ (1 / 2000) = ColorR.black :=
  ⟨by norm_num,
   colorAt_below_threshold_black ⟨fun _ => none⟩ 5 ⟨⟨0, 0, 0⟩, ⟨0, 0, 1⟩⟩ (1 / 2000)
     (by norm_num)⟩

/-- C10: with `oversample = 0` the two sample loops of `Camera::color_at`
run zero iterations — no ray is built and `World::color_at` is never
invoked, which is why the result is independent of the sample oracle — and
the black accumulator is divided by zero samples, giving NaN in every
component instead of an average. -/
theorem camera_zero_oversample_nan :
    ∀ sample : ℕ → ℕ → FEColor,
      cameraColorAt 0 sample = ⟨FE.nan, FE.nan, FE.nan⟩ ∧ oversampleOffsets 0 = [] := by
  intro sample
  constructor
  · simp [cameraColorAt, oversampleOffsets, FEColor.black, FEColor.divScalar, FE.div]
  · rfl

/-- Counterexample to C2 as stated: the recorded multiset
`{(-1, o0), (1, o0)}` (a ray starting inside object 0) contains an
intersection with nonnegative t — namely `(1, o0)`, the smallest such — yet
the second component of `Intersections::hit` is `None`, not that
intersection: the first nonnegative crossing exits object 0, the toggle
empties the currently-inside stack, and the stack top after the toggle is
returned. -/
theorem hit_nearest_counterexample :
    Intersections.hit [⟨-1, 0⟩, ⟨1, 0⟩] = (some 0, none) ∧
      (⟨1, 0⟩ : Inter) ∈ ([⟨-1, 0⟩, ⟨1, 0⟩] : List Inter) ∧
        0 ≤ (⟨1, 0⟩ : Inter).t := by
  refine ⟨?_, by simp, by norm_num⟩
  norm_num [Intersections.hit, sortByT, insertByT, hitGo, lastOpt, removeFirstInter,
    List.foldl]

/-- C6: for every object-space ray, `Cube::intersect` records either nothing
or exactly the pair `[t_min, t_max]` — `t_min` the maximum of the three
per-axis slab minima and `t_max` the minimum of the three per-axis slab
maxima — and it records the pair precisely when `t_min <= t_max`; and for
every point, `Cube::normal` returns the axis-aligned vector of the
largest-magnitude coordinate, ties resolved preferring x over y and y over
z. -/
theorem cube_slab_and_normal :
    (∀ ray : RayQ,
        (FE.le (slabTmin ray) (slabTmax ray) = true ∧
            cubeIntersect ray = [slabTmin ray, slabTmax ray]) ∨
          (FE.le (slabTmin ray) (slabTmax ray) = false ∧ cubeIntersect ray = [])) ∧
      ∀ p : PointQ,
        (cubeNormal p = ⟨p.x, 0, 0⟩ ∧ |p.y| ≤ |p.x| ∧ |p.z| ≤ |p.x|) ∨
          (cubeNormal p = ⟨0, p.y, 0⟩ ∧ |p.x| < |p.y| ∧ |p.z| ≤ |p.y|) ∨
          (cubeNormal p = ⟨0, 0, p.z⟩ ∧ |p.x| < |p.z| ∧ |p.y| < |p.z|) := by
  constructor
  · intro ray
    by_cases h : FE.le (slabTmin ray) (slabTmax ray) = true
    · exact Or.inl ⟨h, by simp [cubeIntersect, h]⟩
    · refine Or.inr ⟨by simpa using h, ?_⟩
      simp only [cubeIntersect]
      rw [if_neg (by simpa using h)]
  · intro p
    simp only [cubeNormal]
    split_ifs with h1 h2 h3
    · exact Or.inl ⟨rfl, h1, h2⟩
    · exact Or.inr (Or.inr ⟨rfl, not_le.mp h2, lt_of_le_of_lt h1 (not_le.mp h2)⟩)
    · exact Or.inr (Or.inl ⟨rfl, not_le.mp h1, h3⟩)
    · exact Or.inr (Or.inr ⟨rfl, (not_le.mp h1).trans (not_le.mp h3), not_le.mp h3⟩)

/-- With positive indices, a transmitted sine-square above 1 forces
`n1 > n2`: a ratio at most 1 and a factor at most 1 cannot multiply past 1. -/
theorem sin2T_gt_one_imp_lt (n1 n2 : ℝ) (eyev normalv : VecR) (h1 : 0 < n1)
    (h2 : 0 < n2) (h : 1 < sin2T n1 n2 eyev normalv) : n2 < n1 := by
  by_contra hc
  have hle : n1 ≤ n2 := not_lt.mp hc
  have hr0 : 0 ≤ n1 / n2 := le_of_lt (div_pos h1 h2)
  have hr1 : n1 / n2 ≤ 1 := (div_le_one h2).mpr hle
  have hsin : sin2T n1 n2 eyev normalv ≤ 1 := by
    simp only [sin2T]
    nlinarith [sq_nonneg (eyev.dot normalv), sq_nonneg (1 - n1 / n2)]
  linarith

/-- C5: for positive refractive indices and any eye/normal configuration,
`sin²θ_t > 1` makes `Material::refracted_color` return exactly black no
matter what the recursive `world.color_at` oracle would answer (so no
recursive ray is cast), and makes `Material::reflectance` return exactly 1;
otherwise the reflectance is the Schlick value `r0 + (1−r0)(1−cos)^5` with
`r0 = ((n1−n2)/(n1+n2))²`, where `cos` is `cos θ_t` on the dense-to-thin
side (`n1 > n2`) and `cos θ_i` otherwise. -/
theorem refraction_tir_and_schlick :
    ∀ (n1 n2 : ℝ) (eyev normalv : VecR), 0 < n1 → 0 < n2 →
      (1 < sin2T n1 n2 eyev normalv →
          (∀ (m : MaterialR) (worldColorAt : RayR → ℝ → ColorR) (point : PointR)
              (total_contribution : ℝ),
            m.refracted_color worldColorAt n1 n2 point eyev normalv total_contribution =
              ColorR.black) ∧
          MaterialR.reflectance n1 n2 eyev normalv = 1) ∧
        (¬ 1 < sin2T n1 n2 eyev normalv →
          MaterialR.reflectance n1 n2 eyev normalv =
            schlickValue n1 n2
              (if n2 < n1 then Real.sqrt (1 - sin2T n1 n2 eyev normalv)
               else eyev.dot normalv)) := by
  intro n1 n2 eyev normalv h1 h2
  have hexp : sin2T n1 n2 eyev normalv =
      n1 / n2 * (n1 / n2) * (1 - eyev.dot normalv * (eyev.dot normalv)) := by
    simp [sin2T]
  constructor
  · intro h
    have h' : 1 < n1 / n2 * (n1 / n2) * (1 - eyev.dot normalv * (eyev.dot normalv)) :=
      hexp ▸ h
    refine ⟨?_, ?_⟩
    · intro m worldColorAt point total_contribution
      simp only [MaterialR.refracted_color]
      rw [if_pos h']
    · have hn : n2 < n1 := sin2T_gt_one_imp_lt n1 n2 eyev normalv h1 h2 h
      simp only [MaterialR.reflectance]
      rw [if_pos hn, if_pos h']
  · intro h
    by_cases hn : n2 < n1
    · have h' : ¬ 1 < n1 / n2 * (n1 / n2) * (1 - eyev.dot normalv * (eyev.dot normalv)) :=
        hexp ▸ h
      simp only [MaterialR.reflectance, schlickValue]
      rw [if_pos hn, if_neg h', if_pos hn, hexp]
    · simp only [MaterialR.reflectance, schlickValue]
      rw [if_neg hn, if_neg hn]

/-- Witness for C5: at `n1 = 2`, `n2 = 1` with perpendicular eye and normal
vectors the transmitted sine-square is 4, so the reflectance is exactly 1
and the refracted contribution is exactly black even against an oracle that
answers a bright color. -/
theorem refraction_tir_witness :
    MaterialR.reflectance 2 1 ⟨1, 0, 0⟩ ⟨0, 1, 0⟩ = 1 ∧
      MaterialR.refracted_color ⟨0, 0, 0, 0, 0, 1 / 2, 1⟩ (fun _ _ => ⟨5, 5, 5⟩) 2 1
        ⟨0, 0, 0⟩ ⟨1, 0, 0⟩ ⟨0, 1, 0⟩ 1 = ColorR.black := by
  have hs : 1 < sin2T 2 1 ⟨1, 0, 0⟩ ⟨0, 1, 0⟩ := by norm_num [sin2T, VecR.dot]
  have h := refraction_tir_and_schlick 2 1 ⟨1, 0, 0⟩ ⟨0, 1, 0⟩ (by norm_num) (by norm_num)
  exact ⟨(h.1 hs).2, (h.1 hs).1 _ _ _ _⟩

/-- Below the contribution threshold every fuel gives black (helper shared
by the termination results). -/
theorem colorAt_below (s : Scene) (fuel : ℕ) (r : RayR) (c : ℝ)
    (h : c < 1 / 1000) : colorAt s fuel r c = ColorR.black := by
  cases fuel with
  | zero => rfl
  | succ n =>
      simp only [colorAt]
      rw [if_pos h]

/-- Energy-decay stabilization: if every hit's reflectivity and transparency
lie in `[0, q]` with `q < 1`, then once `c · qⁿ` is below the 0.001
threshold the value of the recursion no longer depends on any fuel beyond
`n` — the recursion terminates within depth `n`. -/
theorem colorAt_stabilizes (s : Scene) (q : ℝ) (hq0 : 0 ≤ q) (hq1 : q < 1)
    (hb : ∀ (r : RayR) (h : SceneHit), s.hit r = some h →
        0 ≤ h.reflectivity ∧ h.reflectivity ≤ q ∧
          0 ≤ h.transparency ∧ h.transparency ≤ q) :
    ∀ (n : ℕ) (r : RayR) (c : ℝ), c * q ^ n < 1 / 1000 →
      ∀ fuel, n ≤ fuel → colorAt s fuel r c = colorAt s n r c := by
  intro n
  induction n with
  | zero =>
      intro r c hc fuel _
      have hc0 : c < 1 / 1000 := by simpa using hc
      rw [colorAt_below s fuel r c hc0, colorAt_below s 0 r c hc0]
  | succ n ih =>
      intro r c hc fuel hfuel
      obtain ⟨f, rfl⟩ : ∃ f, fuel = f + 1 := ⟨fuel - 1, by omega⟩
      have hf : n ≤ f := by omega
      by_cases hc0 : c < 1 / 1000
      · rw [colorAt_below s (f + 1) r c hc0, colorAt_below s (n + 1) r c hc0]
      · have hcpos : 0 ≤ c := le_trans (by norm_num) (not_lt.mp hc0)
        have hqn : (0:ℝ) ≤ q ^ n := pow_nonneg hq0 n
        cases hhit : s.hit r with
        | none => simp only [colorAt, hhit]
        | some h =>
            obtain ⟨hr0, hrq, ht0, htq⟩ := hb r h hhit
            have key : ∀ x : ℝ, 0 ≤ x → x ≤ q → c * x * q ^ n < 1 / 1000 := by
              intro x hx0 hxq
              have hle : c * x * q ^ n ≤ c * q ^ (n + 1) := by
                rw [pow_succ]
                calc c * x * q ^ n ≤ c * q * q ^ n :=
                      mul_le_mul_of_nonneg_right
                        (mul_le_mul_of_nonneg_left hxq hcpos) hqn
                  _ = c * (q ^ n * q) := by ring
              exact lt_of_le_of_lt hle hc
            have e1 : colorAt s f h.reflect_ray (c * h.reflectivity) =
                colorAt s n h.reflect_ray (c * h.reflectivity) :=
              ih h.reflect_ray (c * h.reflectivity) (key _ hr0 hrq) f hf
            have e2 : colorAt s f h.refract_ray (c * h.transparency) =
                colorAt s n h.refract_ray (c * h.transparency) :=
              ih h.refract_ray (c * h.transparency) (key _ ht0 htq) f hf
            simp only [colorAt, hhit]
            rw [if_neg hc0, if_neg hc0, e1, e2]

/-- C4 (amended: reflectivity strictly below 1, uniformly over the scene's
materials): when every hit's reflectivity and transparency lie in `[0, q]`
for a single `q < 1`, the recursive shading evaluation terminates — for
every ray and starting contribution there is a depth `N` past which more
fuel cannot change the value, because each recursive cast multiplies the
contribution by at most `q` and the 0.001 threshold then stops the
recursion; no fixed depth counter is involved. -/
theorem colorAt_energy_decay_terminates :
    ∀ (s : Scene) (q : ℝ), 0 ≤ q → q < 1 →
      (∀ (r : RayR) (h : SceneHit), s.hit r = some h →
          0 ≤ h.reflectivity ∧ h.reflectivity ≤ q ∧
            0 ≤ h.transparency ∧ h.transparency ≤ q) →
      ∀ (r : RayR) (c : ℝ), ∃ N : ℕ, ∀ fuel, N ≤ fuel →
        colorAt s fuel r c = colorAt s N r c := by
  intro s q hq0 hq1 hb r c
  by_cases hc0 : c < 1 / 1000
  · exact ⟨0, fun fuel _ => by
      rw [colorAt_below s fuel r c hc0, colorAt_below s 0 r c hc0]⟩
  · have hcpos : (0:ℝ) < c := lt_of_lt_of_le (by norm_num) (not_lt.mp hc0)
    obtain ⟨N, hN⟩ :=
      exists_pow_lt_of_lt_one (div_pos (show (0:ℝ) < 1 / 1000 by norm_num) hcpos) hq1
    refine ⟨N, fun fuel hfuel => ?_⟩
    have hcN : c * q ^ N < 1 / 1000 := by
      have := (mul_lt_mul_left hcpos).mpr hN
      rwa [mul_div_cancel₀ _ (ne_of_gt hcpos)] at this
    exact colorAt_stabilizes s q hq0 hq1 hb N r c hcN fuel hfuel

/-- In the one-perfect-mirror scene the value grows with the fuel: the red
channel after `n` levels is exactly `n`. -/
theorem mirror_red (n : ℕ) : ∀ r : RayR,
    (colorAt mirrorScene n r 1).red = n := by
  induction n with
  | zero =>
      intro r
      show ColorR.black.red = ((0:ℕ):ℝ)
      simp [ColorR.black]
  | succ n ih =>
      intro r
      have hhit : mirrorScene.hit r =
          some ⟨1, 0, ⟨1, 1, 1⟩, ⟨⟨0, 0, 0⟩, ⟨0, 0, 1⟩⟩, false,
            ⟨⟨0, 0, 0⟩, ⟨0, 0, 1⟩⟩, 1⟩ := rfl
      simp only [colorAt, hhit]
      norm_num [ColorR.add, ColorR.smul, ih]
      ring

/-- Counterexample to C4 as stated: the mirror scene's only material has
reflectivity exactly 1 — inside the claimed interval [0,1] — and
transparency 0, yet the recursion does not terminate: no depth `N` makes
the value independent of further fuel, since the red channel equals the
fuel spent. -/
theorem colorAt_mirror_no_termination :
    ¬ ∃ N : ℕ, ∀ fuel, N ≤ fuel →
        colorAt mirrorScene fuel ⟨⟨0, 0, 0⟩, ⟨0, 0, 1⟩⟩ 1 =
          colorAt mirrorScene N ⟨⟨0, 0, 0⟩, ⟨0, 0, 1⟩⟩ 1 := by
  rintro ⟨N, hN⟩
  have h1 := congrArg ColorR.red (hN (N + 1) (by omega))
  rw [mirror_red (N + 1) _, mirror_red N _] at h1
  have : (N : ℝ) + 1 = N := by exact_mod_cast h1
  linarith

/-- Witness for C4 at the concrete half-mirror scene with `q = 1/2`. -/
theorem colorAt_energy_decay_witness :
    (0:ℝ) ≤ 1 / 2 ∧ (1 / 2 : ℝ) < 1 ∧
      ∃ N : ℕ, ∀ fuel, N ≤ fuel →
        colorAt halfMirrorScene fuel ⟨⟨0, 0, 0⟩, ⟨0, 0, 1⟩⟩ 1 =
          colorAt halfMirrorScene N ⟨⟨0, 0, 0⟩, ⟨0, 0, 1⟩⟩ 1 := by
  refine ⟨by norm_num, by norm_num, ?_⟩
  refine colorAt_energy_decay_terminates halfMirrorScene (1 / 2) (by norm_num)
    (by norm_num) ?_ _ 1
  intro r h e
  simp only [halfMirrorScene] at e
  injection e with e1
  subst e1
  norm_num

/-- One step into the current row of the row-major tail. -/
theorem rowMajorFrom_cons (h v x y : ℕ) (hx : x < h) :
    rowMajorFrom h v x y = (x, y) :: rowMajorFrom h v (x + 1) y := by
  simp only [rowMajorFrom]
  have e : h - x = (h - (x + 1)) + 1 := by omega
  rw [e, List.range'_succ x (h - (x + 1)) 1]
  simp

/-- At the end of a row the tail continues at the start of the next row. -/
theorem rowMajorFrom_rowEnd (h v y : ℕ) (hy : y + 1 < v) :
    rowMajorFrom h v h y = rowMajorFrom h v 0 (y + 1) := by
  simp only [rowMajorFrom]
  have e1 : h - h = 0 := by omega
  have e2 : v - (y + 1) = (v - (y + 2)) + 1 := by omega
  rw [e1, e2, List.range'_succ (y + 1) (v - (y + 2)) 1]
  simp [List.range_eq_range']

/-- Past the last row the tail is empty. -/
theorem rowMajorFrom_end (h v y : ℕ) (hy : v ≤ y + 1) :
    rowMajorFrom h v h y = [] := by
  simp only [rowMajorFrom]
  have e1 : h - h = 0 := by omega
  have e2 : v - (y + 1) = 0 := by omega
  rw [e1, e2]
  simp

/-- Driving the iterator from any valid position yields exactly the
row-major tail and then observes termination, provided the fuel exceeds the
number of remaining pixels. -/
theorem runIter_rowMajorFrom (h v : ℕ) (hh : 1 ≤ h) :
    ∀ (fuel x y : ℕ), x < h → y < v → (h - x) + h * (v - y - 1) < fuel →
      runIter fuel ⟨h, v, x, y⟩ = (rowMajorFrom h v x y, true) := by
  intro fuel
  induction fuel with
  | zero => intro x y hx hy hm; omega
  | succ f ih =>
      intro x y hx hy hm
      by_cases hwrap : h ≤ x + 1
      · have hx1 : x + 1 = h := by omega
        have hnext : (⟨h, v, x, y⟩ : PixelIterator).next =
            some ((x, y), ⟨h, v, 0, y + 1⟩) := by
          simp only [PixelIterator.next]
          rw [if_pos hy, if_pos hwrap]
        by_cases hrow : y + 1 < v
        · have hm1 : (h - 0) + h * (v - (y + 1) - 1) < f := by
            have e : h * (v - y - 1) = h + h * (v - (y + 1) - 1) := by
              have e2 : v - y - 1 = (v - (y + 1) - 1) + 1 := by omega
              rw [e2]; ring
            omega
          simp only [runIter, hnext]
          rw [ih 0 (y + 1) (by omega) hrow hm1]
          rw [rowMajorFrom_cons h v x y hx, hx1, rowMajorFrom_rowEnd h v y hrow]
        · obtain ⟨f2, rfl⟩ : ∃ f2, f = f2 + 1 := ⟨f - 1, by omega⟩
          have hnone : (⟨h, v, 0, y + 1⟩ : PixelIterator).next = none := by
            simp only [PixelIterator.next]
            rw [if_neg (by omega)]
          simp only [runIter, hnext, hnone]
          rw [rowMajorFrom_cons h v x y hx, hx1, rowMajorFrom_end h v y (by omega)]
      · have hm1 : (h - (x + 1)) + h * (v - y - 1) < f := by omega
        have hnext : (⟨h, v, x, y⟩ : PixelIterator).next =
            some ((x, y), ⟨h, v, x + 1, y⟩) := by
          simp only [PixelIterator.next]
          rw [if_pos hy, if_neg hwrap]
        simp only [runIter, hnext]
        rw [ih (x + 1) y (by omega) hy hm1]
        rw [rowMajorFrom_cons h v x y hx]

/-- C9 (amended: the horizontal size must be at least 1): for every camera
size with `h ≥ 1`, iterating over `&Camera` yields exactly the `h·v` pixel
coordinates, each once, in row-major order — y increasing outermost, x
increasing innermost — and then `next` returns `None`; any step budget
beyond `h·v + 1` observes the same completed trace. -/
theorem pixel_iterator_row_major :
    ∀ (h v fuel : ℕ), 1 ≤ h → h * v + 1 ≤ fuel →
      runIter fuel (intoIter h v) = (rowMajor h v, true) := by
  intro h v fuel hh hfuel
  cases v with
  | zero =>
      obtain ⟨f, rfl⟩ : ∃ f, fuel = f + 1 := ⟨fuel - 1, by omega⟩
      simp [runIter, intoIter, PixelIterator.next, rowMajor]
  | succ v1 =>
      have hm : (h - 0) + h * (v1 + 1 - 0 - 1) < fuel := by
        have e2 : v1 + 1 - 0 - 1 = v1 := by omega
        rw [e2]
        have e : h * (v1 + 1) = h + h * v1 := by ring
        omega
      rw [show intoIter h (v1 + 1) = ⟨h, v1 + 1, 0, 0⟩ from rfl]
      rw [runIter_rowMajorFrom h (v1 + 1) hh fuel 0 0 (by omega) (by omega) hm]
      have e : rowMajorFrom h (v1 + 1) 0 0 = rowMajor h (v1 + 1) := by
        simp only [rowMajorFrom, rowMajor]
        have e1 : h - 0 = h := by omega
        rw [e1, List.range_eq_range' (v1 + 1), List.range'_succ 0 v1 1]
        simp [List.range_eq_range']
      rw [e]

/-- Counterexample to C9 as stated: a camera with `hsize = 0` and
`vsize = 1` should yield `0·1 = 0` pixels, but the iterator yields the
out-of-range pixel `(0, 0)` — the x bound is only checked after the yield. -/
theorem pixel_iterator_hsize_zero_counterexample :
    runIter 3 (intoIter 0 1) = ([(0, 0)], true) ∧ rowMajor 0 1 = [] := by
  constructor
  · rfl
  · rfl

/-- Witness for C9 at a 2×2 camera with fuel 5. -/
theorem pixel_iterator_row_major_witness :
    1 ≤ 2 ∧ 2 * 2 + 1 ≤ 5 ∧
      runIter 5 (intoIter 2 2) = (rowMajor 2 2, true) :=
  ⟨by omega, by omega, pixel_iterator_row_major 2 2 5 (by omega) (by omega)⟩

set_option maxHeartbeats 1000000 in
/-- Laplace/adjugate identity: a matrix times its cofactor inverse is the
identity (right inverse), for nonzero determinant. -/
theorem mat4_mul_inverse_right : ∀ m : Mat4, m.determinant ≠ 0 →
    m.mul m.inverse = Mat4.identity := by
  rintro ⟨a00, a01, a02, a03, a10, a11, a12, a13, a20, a21, a22, a23, a30, a31, a32, a33⟩ h
  simp only [Mat4.determinant, Mat4.cofactor, Mat4.minor, Mat4.submatrix, Mat3.determinant,
    Mat3.cofactor, Mat3.minor, Mat3.submatrix, Mat2.determinant] at h
  norm_num at h
  simp only [Mat4.mul, Mat4.inverse, Mat4.determinant, Mat4.cofactor, Mat4.minor,
    Mat4.submatrix, Mat3.determinant, Mat3.cofactor, Mat3.minor, Mat3.submatrix,
    Mat2.determinant, Mat4.identity]
  norm_num
  and_intros <;> field_simp <;> ring

set_option maxHeartbeats 1000000 in
/-- The cofactor inverse is also a left inverse. -/
theorem mat4_mul_inverse_left : ∀ m : Mat4, m.determinant ≠ 0 →
    m.inverse.mul m = Mat4.identity := by
  rintro ⟨a00, a01, a02, a03, a10, a11, a12, a13, a20, a21, a22, a23, a30, a31, a32, a33⟩ h
  simp only [Mat4.determinant, Mat4.cofactor, Mat4.minor, Mat4.submatrix, Mat3.determinant,
    Mat3.cofactor, Mat3.minor, Mat3.submatrix, Mat2.determinant] at h
  norm_num at h
  simp only [Mat4.mul, Mat4.inverse, Mat4.determinant, Mat4.cofactor, Mat4.minor,
    Mat4.submatrix, Mat3.determinant, Mat3.cofactor, Mat3.minor, Mat3.submatrix,
    Mat2.determinant, Mat4.identity]
  norm_num
  and_intros <;> field_simp <;> ring

set_option maxHeartbeats 2000000 in
/-- The cofactor-expansion determinant is multiplicative. -/
theorem mat4_det_mul : ∀ a b : Mat4,
    (a.mul b).determinant = a.determinant * b.determinant := by
  rintro ⟨a00, a01, a02, a03, a10, a11, a12, a13, a20, a21, a22, a23, a30, a31, a32, a33⟩
    ⟨b00, b01, b02, b03, b10, b11, b12, b13, b20, b21, b22, b23, b30, b31, b32, b33⟩
  simp only [Mat4.mul, Mat4.determinant, Mat4.cofactor, Mat4.minor, Mat4.submatrix,
    Mat3.determinant, Mat3.cofactor, Mat3.minor, Mat3.submatrix, Mat2.determinant]
  norm_num
  ring

/-- Matrix multiplication is associative. -/
theorem mat4_mul_assoc : ∀ a b c : Mat4, (a.mul b).mul c = a.mul (b.mul c) := by
  rintro ⟨a00, a01, a02, a03, a10, a11, a12, a13, a20, a21, a22, a23, a30, a31, a32, a33⟩
    ⟨b00, b01, b02, b03, b10, b11, b12, b13, b20, b21, b22, b23, b30, b31, b32, b33⟩
    ⟨c00, c01, c02, c03, c10, c11, c12, c13, c20, c21, c22, c23, c30, c31, c32, c33⟩
  simp only [Mat4.mul]
  norm_num
  and_intros <;> ring

/-- The identity is a right unit. -/
theorem mat4_mul_identity : ∀ a : Mat4, a.mul Mat4.identity = a := by
  rintro ⟨a00, a01, a02, a03, a10, a11, a12, a13, a20, a21, a22, a23, a30, a31, a32, a33⟩
  simp only [Mat4.mul, Mat4.identity]
  norm_num

/-- The identity is a left unit. -/
theorem mat4_identity_mul : ∀ a : Mat4, Mat4.identity.mul a = a := by
  rintro ⟨a00, a01, a02, a03, a10, a11, a12, a13, a20, a21, a22, a23, a30, a31, a32, a33⟩
  simp only [Mat4.mul, Mat4.identity]
  norm_num

/-- The identity matrix has determinant 1. -/
theorem mat4_det_identity : Mat4.identity.determinant = 1 := by
  norm_num [Mat4.identity, Mat4.determinant, Mat4.cofactor, Mat4.minor, Mat4.submatrix,
    Mat3.determinant, Mat3.cofactor, Mat3.minor, Mat3.submatrix, Mat2.determinant]

/-- An invertible matrix's cofactor inverse has nonzero determinant. -/
theorem mat4_det_inverse_ne (m : Mat4) (h : m.determinant ≠ 0) :
    m.inverse.determinant ≠ 0 := by
  intro h0
  have h2 : (m.inverse.mul m).determinant = m.inverse.determinant * m.determinant :=
    mat4_det_mul m.inverse m
  rw [mat4_mul_inverse_left m h, mat4_det_identity, h0, zero_mul] at h2
  norm_num at h2

/-- C7: over the exact-arithmetic model of the cofactor construction, for
every 4×4 matrix with nonzero determinant the inverse of the inverse is the
matrix itself, and for every two such matrices the inverse of the product is
the product of the inverses in reverse order (the floating-point code
realizes these up to rounding, whence the claim's "approximately"). -/
theorem matrix_inverse_roundtrip_and_product_rule :
    (∀ m : Mat4, m.determinant ≠ 0 → m.inverse.inverse = m) ∧
      ∀ a b : Mat4, a.determinant ≠ 0 → b.determinant ≠ 0 →
        (a.mul b).inverse = b.inverse.mul a.inverse := by
  constructor
  · intro m h
    have h2 := mat4_det_inverse_ne m h
    have e1 : m.mul m.inverse = Mat4.identity := mat4_mul_inverse_right m h
    have e2 : m.inverse.mul m.inverse.inverse = Mat4.identity :=
      mat4_mul_inverse_right m.inverse h2
    calc m.inverse.inverse = Mat4.identity.mul m.inverse.inverse :=
          (mat4_identity_mul _).symm
      _ = (m.mul m.inverse).mul m.inverse.inverse := by rw [e1]
      _ = m.mul (m.inverse.mul m.inverse.inverse) := mat4_mul_assoc _ _ _
      _ = m.mul Mat4.identity := by rw [e2]
      _ = m := mat4_mul_identity _
  · intro a b ha hb
    symm
    have hab : (a.mul b).determinant ≠ 0 := by
      rw [mat4_det_mul]; exact mul_ne_zero ha hb
    have e3 : (a.mul b).mul (a.mul b).inverse = Mat4.identity :=
      mat4_mul_inverse_right _ hab
    have e4 : a.inverse.mul ((a.mul b).mul (a.mul b).inverse) =
        b.mul (a.mul b).inverse := by
      rw [mat4_mul_assoc a b (a.mul b).inverse, ← mat4_mul_assoc a.inverse a
        (b.mul (a.mul b).inverse), mat4_mul_inverse_left a ha, mat4_identity_mul]
    calc b.inverse.mul a.inverse
        = (b.inverse.mul a.inverse).mul Mat4.identity := (mat4_mul_identity _).symm
      _ = (b.inverse.mul a.inverse).mul ((a.mul b).mul (a.mul b).inverse) := by rw [e3]
      _ = b.inverse.mul (a.inverse.mul ((a.mul b).mul (a.mul b).inverse)) :=
          mat4_mul_assoc _ _ _
      _ = b.inverse.mul (b.mul (a.mul b).inverse) := by rw [e4]
      _ = (b.inverse.mul b).mul (a.mul b).inverse := (mat4_mul_assoc _ _ _).symm
      _ = Mat4.identity.mul (a.mul b).inverse := by rw [mat4_mul_inverse_left b hb]
      _ = (a.mul b).inverse := mat4_identity_mul _

/-- Witness for C7 at a concrete translation matrix (determinant 1) and a
concrete scaling/translation pair. -/
theorem matrix_inverse_roundtrip_witness :
    ((⟨1, 0, 0, 5, 0, 1, 0, -3, 0, 0, 1, 2, 0, 0, 0, 1⟩ : Mat4).determinant ≠ 0 ∧
        (⟨1, 0, 0, 5, 0, 1, 0, -3, 0, 0, 1, 2, 0, 0, 0, 1⟩ : Mat4).inverse.inverse =
          ⟨1, 0, 0, 5, 0, 1, 0, -3, 0, 0, 1, 2, 0, 0, 0, 1⟩) ∧
      ((⟨2, 0, 0, 0, 0, 3, 0, 0, 0, 0, 4, 0, 0, 0, 0, 1⟩ : Mat4).determinant ≠ 0 ∧
        (⟨1, 0, 0, 5, 0, 1, 0, -3, 0, 0, 1, 2, 0, 0, 0, 1⟩ : Mat4).determinant ≠ 0 ∧
        ((⟨2, 0, 0, 0, 0, 3, 0, 0, 0, 0, 4, 0, 0, 0, 0, 1⟩ : Mat4).mul
              ⟨1, 0, 0, 5, 0, 1, 0, -3, 0, 0, 1, 2, 0, 0, 0, 1⟩).inverse =
          (⟨1, 0, 0, 5, 0, 1, 0, -3, 0, 0, 1, 2, 0, 0, 0, 1⟩ : Mat4).inverse.mul
            (⟨2, 0, 0, 0, 0, 3, 0, 0, 0, 0, 4, 0, 0, 0, 0, 1⟩ : Mat4).inverse) := by
  have hT : (⟨1, 0, 0, 5, 0, 1, 0, -3, 0, 0, 1, 2, 0, 0, 0, 1⟩ : Mat4).determinant ≠ 0 := by
    norm_num [Mat4.determinant, Mat4.cofactor, Mat4.minor, Mat4.submatrix,
      Mat3.determinant, Mat3.cofactor, Mat3.minor, Mat3.submatrix, Mat2.determinant]
  have hS : (⟨2, 0, 0, 0, 0, 3, 0, 0, 0, 0, 4, 0, 0, 0, 0, 1⟩ : Mat4).determinant ≠ 0 := by
    norm_num [Mat4.determinant, Mat4.cofactor, Mat4.minor, Mat4.submatrix,
      Mat3.determinant, Mat3.cofactor, Mat3.minor, Mat3.submatrix, Mat2.determinant]
  exact ⟨⟨hT, matrix_inverse_roundtrip_and_product_rule.1 _ hT⟩,
    ⟨hS, hT, matrix_inverse_roundtrip_and_product_rule.2 _ _ hS hT⟩⟩

/-- `lastOpt` commutes with `map`. -/
theorem lastOpt_map {α β : Type} (f : α → β) : ∀ l : List α,
    lastOpt (l.map f) = (lastOpt l).map f := by
  intro l
  induction l with
  | nil => rfl
  | cons x xs ih =>
      cases xs with
      | nil => rfl
      | cons y ys => simpa [lastOpt] using ih

/-- The last element of a push is the pushed element. -/
theorem lastOpt_concat {α : Type} (x : α) : ∀ l : List α,
    lastOpt (l ++ [x]) = some x := by
  intro l
  induction l with
  | nil => rfl
  | cons y ys ih =>
      cases hys : ys ++ [x] with
      | nil => exact absurd hys (by simp)
      | cons z zs =>
          rw [List.cons_append, hys]
          rw [show lastOpt (y :: z :: zs) = lastOpt (z :: zs) from rfl]
          rw [← hys, ih]

/-- Removing the first intersection of an object corresponds, through the
projection to object indices, to removing that object from the spec's
medium stack. -/
theorem removeFirst_map (oi : ℕ) : ∀ l : List Inter,
    removeFirstNat oi (l.map Inter.object_index) =
      (removeFirstInter oi l).map (List.map Inter.object_index) := by
  intro l
  induction l with
  | nil => rfl
  | cons x xs ih =>
      simp only [List.map_cons, removeFirstNat, removeFirstInter]
      by_cases h : x.object_index = oi
      · rw [if_pos h, if_pos h]
        rfl
      · rw [if_neg h, if_neg h, ih]
        cases removeFirstInter oi xs <;> rfl

/-- The loop of `Intersections::hit` agrees step by step with the spec's
currently-inside pseudocode, relating the code's stack of intersections to
the spec's stack of media by projecting to object indices. -/
theorem hitGo_agrees : ∀ (hits containers : List Inter) (fromObj : Option ℕ),
    (hitGo hits containers fromObj).1 =
        (specHitGo hits (containers.map Inter.object_index) fromObj).1 ∧
      (hitGo hits containers fromObj).2.map Inter.object_index =
        (specHitGo hits (containers.map Inter.object_index) fromObj).2 := by
  intro hits
  induction hits with
  | nil => intro c f; simp [hitGo, specHitGo]
  | cons h rest ih =>
      intro containers fromObj
      simp only [hitGo, specHitGo]
      rw [removeFirst_map h.object_index containers]
      cases hrm : removeFirstInter h.object_index containers with
      | some l =>
          by_cases ht : 0 ≤ h.t
          · simp [ht, lastOpt_map]
          · simpa [ht] using ih l fromObj
      | none =>
          by_cases ht : 0 ≤ h.t
          · simp [ht, lastOpt_map, lastOpt_concat]
          · have hrec := ih (containers ++ [h]) fromObj
            simpa [ht, List.map_append] using hrec

/-- Membership in a stable insertion. -/
theorem mem_insertByT (x a : Inter) : ∀ l : List Inter,
    a ∈ insertByT x l ↔ a = x ∨ a ∈ l := by
  intro l
  induction l with
  | nil => simp [insertByT]
  | cons y ys ih =>
      simp only [insertByT]
      by_cases h : y.t ≤ x.t
      · rw [if_pos h]
        simp only [List.mem_cons, ih]
        tauto
      · rw [if_neg h]
        exact List.mem_cons

/-- Sorting preserves the recorded multiset's members. -/
theorem mem_sortByT (a : Inter) (l : List Inter) : a ∈ sortByT l ↔ a ∈ l := by
  suffices hgen : ∀ (l acc : List Inter),
      (a ∈ l.foldl (fun acc x => insertByT x acc) acc ↔ a ∈ acc ∨ a ∈ l) by
    have := hgen l []
    simpa [sortByT] using this
  intro l
  induction l with
  | nil => intro acc; simp
  | cons x xs ih =>
      intro acc
      simp only [List.foldl_cons, ih, mem_insertByT, List.mem_cons]
      tauto

/-- Stable insertion preserves sortedness by `t`. -/
theorem insertByT_pairwise (x : Inter) : ∀ l : List Inter,
    l.Pairwise (fun a b => a.t ≤ b.t) →
      (insertByT x l).Pairwise (fun a b => a.t ≤ b.t) := by
  intro l
  induction l with
  | nil => intro _; simp [insertByT]
  | cons y ys ih =>
      intro hl
      obtain ⟨hy, hys⟩ := List.pairwise_cons.mp hl
      simp only [insertByT]
      by_cases h : y.t ≤ x.t
      · rw [if_pos h]
        refine List.pairwise_cons.mpr ⟨?_, ih hys⟩
        intro b hb
        rcases (mem_insertByT x b ys).mp hb with rfl | hbys
        · exact h
        · exact hy b hbys
      · rw [if_neg h]
        refine List.pairwise_cons.mpr ⟨?_, hl⟩
        intro b hb
        rcases List.mem_cons.mp hb with rfl | hbys
        · exact le_of_lt (not_le.mp h)
        · exact le_trans (le_of_lt (not_le.mp h)) (hy b hbys)

/-- The sort of `Intersections::hit` produces a `t`-sorted list. -/
theorem sortByT_pairwise (l : List Inter) :
    (sortByT l).Pairwise (fun a b => a.t ≤ b.t) := by
  suffices hgen : ∀ (l acc : List Inter), acc.Pairwise (fun a b => a.t ≤ b.t) →
      (l.foldl (fun acc x => insertByT x acc) acc).Pairwise (fun a b => a.t ≤ b.t) by
    simpa [sortByT] using hgen l [] (by simp)
  intro l
  induction l with
  | nil => intro acc h; simpa using h
  | cons x xs ih =>
      intro acc h
      simpa using ih (insertByT x acc) (insertByT_pairwise x acc h)

set_option maxHeartbeats 4000000 in
/-- C1: `Intersections::hit` computes exactly what the spec's
currently-inside stack pseudocode (§4.4) computes, on every recorded
multiset — same from-medium and same after-medium (the returned
intersection's object) — and on the three concentric transparent spheres
a (radius 3), b (radius 1 at z = −0.25), c (radius 1 at z = +0.25), probed
by +z rays from z = −4, −2, −1, 0, 1, 2, 4, it returns (None, a), (a, b),
(b, c), (c, c), (c, a), (a, None), (None, None). -/
theorem hit_stack_algorithm_and_medium_tracking :
    (∀ hits : List Inter,
        (Intersections.hit hits).1 = (specHit hits).1 ∧
          (Intersections.hit hits).2.map Inter.object_index = (specHit hits).2) ∧
      mediumQuery (-4) = (none, some 0) ∧ mediumQuery (-2) = (some 0, some 1) ∧
        mediumQuery (-1) = (some 1, some 2) ∧ mediumQuery 0 = (some 2, some 2) ∧
        mediumQuery 1 = (some 2, some 0) ∧ mediumQuery 2 = (some 0, none) ∧
        mediumQuery 4 = (none, none) := by
  refine ⟨fun hits => ?_, ?_, ?_, ?_, ?_, ?_, ?_, ?_⟩
  · simpa [Intersections.hit, specHit] using hitGo_agrees (sortByT hits) [] none
  all_goals
    norm_num [mediumQuery, scenarioObjects, worldIntersect, ObjectQ.intersect,
      mkSphereObject, Mat4.inverse, Mat4.cofactor, Mat4.minor, Mat4.submatrix,
      Mat3.determinant, Mat3.cofactor, Mat3.minor, Mat3.submatrix,
      Mat2.determinant, Mat4.determinant, Mat4.identity, Mat4.scale, Mat4.translate,
      Mat4.mul, Mat4.mulRay, Mat4.mulPoint, Mat4.mulVec, sphereIntersect, sqrtQ,
      addInter, Intersections.hit, sortByT, insertByT, hitGo, lastOpt,
      removeFirstInter, PointQ.as_vector, VecQ.dot, List.enum]

/-- C2 (amended: all recorded parameters nonnegative): when the recorded
multiset is nonempty and no crossing has negative t — the ray origin is
outside every recorded solid — the second component of `Intersections::hit`
is a recorded intersection of minimal t, i.e. the nearest intersection with
nonnegative ray parameter. -/
theorem hit_second_nearest_when_all_nonneg :
    ∀ hits : List Inter, hits ≠ [] → (∀ i ∈ hits, 0 ≤ i.t) →
      ∃ h, (Intersections.hit hits).2 = some h ∧ h ∈ hits ∧ 0 ≤ h.t ∧
        ∀ i ∈ hits, h.t ≤ i.t := by
  intro hits hne hnn
  obtain ⟨a, ha⟩ := List.exists_mem_of_ne_nil hits hne
  obtain ⟨h, rest, hsort⟩ : ∃ h rest, sortByT hits = h :: rest := by
    cases hs : sortByT hits with
    | nil =>
        exact absurd ((mem_sortByT a hits).mpr ha) (by simp [hs])
    | cons h rest => exact ⟨h, rest, rfl⟩
  have hmem : h ∈ hits := (mem_sortByT h hits).mp (hsort ▸ List.mem_cons_self h rest)
  have hh : 0 ≤ h.t := hnn h hmem
  refine ⟨h, ?_, hmem, hh, ?_⟩
  · simp [Intersections.hit, hsort, hitGo, removeFirstInter, lastOpt, hh]
  · intro i hi
    have hi1 : i ∈ h :: rest := hsort ▸ (mem_sortByT i hits).mpr hi
    rcases List.mem_cons.mp hi1 with rfl | hir
    · exact le_refl _
    · have hp := sortByT_pairwise hits
      rw [hsort] at hp
      exact (List.pairwise_cons.mp hp).1 i hir

/-- Witness for the amended C2 on a concrete all-nonnegative multiset. -/
theorem hit_second_nearest_witness :
    ([⟨2, 0⟩, ⟨1, 1⟩] : List Inter) ≠ [] ∧
      (∀ i ∈ ([⟨2, 0⟩, ⟨1, 1⟩] : List Inter), 0 ≤ i.t) ∧
      ∃ h, (Intersections.hit [⟨2, 0⟩, ⟨1, 1⟩]).2 = some h ∧
        h ∈ ([⟨2, 0⟩, ⟨1, 1⟩] : List Inter) ∧ 0 ≤ h.t ∧
        ∀ i ∈ ([⟨2, 0⟩, ⟨1, 1⟩] : List Inter), h.t ≤ i.t := by
  have hnn : ∀ i ∈ ([⟨2, 0⟩, ⟨1, 1⟩] : List Inter), 0 ≤ i.t := by
    intro i hi
    rcases List.mem_cons.mp hi with rfl | hi1
    · norm_num
    · rcases List.mem_cons.mp hi1 with rfl | hi2
      · norm_num
      · simp at hi2
  exact ⟨by simp, hnn,
    hit_second_nearest_when_all_nonneg [⟨2, 0⟩, ⟨1, 1⟩] (by simp) hnn⟩

end RayTracer
